import Mathlib

/- Shallow embedding of src/scrapers/JustForFans/JustForFans.py.
   Python strings are modelled as lists of characters; the regular-expression
   based normalisation helpers of the source are translated step by step.
   The external dateutil-backed date parser is an abstracted parameter
   (it is an out-of-scope collaborator of the program). -/

/-- Python regex whitespace class (ASCII part), as used by the source's
calls such as re.sub with a whitespace pattern and str.strip. -/
def isPySpace (c : Char) : Bool :=
  c = ' ' || c = '\t' || c = '\n' || c = '\r' || c = '\x0b' || c = '\x0c'

/-- Characters matched by the source's underscore-or-dash character class. -/
def isDashUnd (c : Char) : Bool :=
  c = '_' || c = '-'

/-- re.sub replacing each maximal run of underscores or dashes by one space
(step two of the source's text normaliser): inside a run only the last
character emits the space. -/
def subDashes : List Char → List Char
  | [] => []
  | [c] => if isDashUnd c then [' '] else [c]
  | c :: d :: cs =>
    if isDashUnd c then
      if isDashUnd d then subDashes (d :: cs)
      else ' ' :: subDashes (d :: cs)
    else c :: subDashes (d :: cs)

/-- Keep lowercase letters, digits and whitespace; all other characters are
replaced by a space (step three of the source's text normaliser). -/
def keepLowAl (c : Char) : Bool :=
  ('a' ≤ c && c ≤ 'z') || ('0' ≤ c && c ≤ '9') || isPySpace c

/-- re.sub replacing every character outside the lowercase-alphanumeric and
whitespace classes by a space. -/
def subBad (l : List Char) : List Char :=
  l.map (fun c => if keepLowAl c then c else ' ')

/-- re.sub replacing each maximal whitespace run by one space: inside a run
only the last character emits the space. -/
def collapseWS : List Char → List Char
  | [] => []
  | [c] => if isPySpace c then [' '] else [c]
  | c :: d :: cs =>
    if isPySpace c then
      if isPySpace d then collapseWS (d :: cs)
      else ' ' :: collapseWS (d :: cs)
    else c :: collapseWS (d :: cs)

/-- Python str.lstrip for whitespace. -/
def lstripWS (l : List Char) : List Char :=
  l.dropWhile isPySpace

/-- Python str.rstrip for whitespace. -/
def rstripWS (l : List Char) : List Char :=
  (l.reverse.dropWhile isPySpace).reverse

/-- Python str.strip for whitespace. -/
def stripWS (l : List Char) : List Char :=
  rstripWS (lstripWS l)

/-- The source's _normalize_text: lowercase, turn dash runs and every
non-alphanumeric character into spaces, collapse whitespace, strip. -/
def normalize_text (l : List Char) : List Char :=
  if l.isEmpty then []
  else stripWS (collapseWS (subBad (subDashes (l.map Char.toLower))))

/-- The source's _normalize_digits: drop every non-digit character. -/
def normalize_digits (l : List Char) : List Char :=
  l.filter Char.isDigit

/-- Bool test that the first list starts the second (helper for the Python
substring operator). -/
def startsWithL : List Char → List Char → Bool
  | [], _ => true
  | _ :: _, [] => false
  | a :: as, b :: bs => a = b && startsWithL as bs

/-- The Python substring containment operator: needle occurs inside haystack
(the empty needle is contained in everything). -/
def containsSub (needle : List Char) : List Char → Bool
  | [] => needle.isEmpty
  | c :: rest => startsWithL needle (c :: rest) || containsSub needle rest

/-- One feed entry, the source's ParsedPost dataclass. -/
structure ParsedPost where
  post_id : List Char
  post_id_digits : List Char
  post_type : List Char
  date : Option (List Char)
  full_text : List Char
  text_preview : List Char
  photos : List (List Char)
  locked : Bool
deriving DecidableEq, Repr

/-- The source's expression post.full_text or post.text_preview. -/
def effectiveText (post : ParsedPost) : List Char :=
  if post.full_text.isEmpty then post.text_preview else post.full_text

/-- The normalised haystack the matcher scores against. -/
def normHaystack (post : ParsedPost) : List Char :=
  normalize_text (effectiveText post)

/-- Count of keywords contained in the haystack, the source's
sum of ones over keywords found in the normalised text. -/
def keywordScore (kws : List (List Char)) (hay : List Char) : Nat :=
  kws.countP (fun kw => containsSub kw hay)

/-- Keyword score of one post. -/
def postScore (kws : List (List Char)) (post : ParsedPost) : Nat :=
  keywordScore kws (normHaystack post)

/-- One step of the source's best-score selection loop: replace the running
best on a strictly greater score. -/
def bestStep (kws : List (List Char)) (acc : Option ParsedPost × Int) (post : ParsedPost) :
    Option ParsedPost × Int :=
  if acc.2 < (postScore kws post : Int) then (some post, (postScore kws post : Int)) else acc

/-- The source's selection loop over a candidate list, starting from
best = None and best_score = -1. -/
def bestFold (kws : List (List Char)) (posts : List ParsedPost) : Option ParsedPost × Int :=
  posts.foldl (bestStep kws) (none, -1)

/-- Truthiness of an optional string in Python (None and the empty string
are falsy). -/
def optTruthy : Option (List Char) → Bool
  | none => false
  | some s => !s.isEmpty

/-- The identifier strategy of _find_target: when the target id has digits,
the first post with equal digit-normalised id. -/
def idLookup (posts : List ParsedPost) (target_id : List Char) : Option ParsedPost :=
  if (normalize_digits target_id).isEmpty then none
  else posts.find? (fun p => p.post_id_digits == normalize_digits target_id)

/-- The date strategy of _find_target: restrict to posts with the given date,
then pick the best keyword scorer (first date match when no keywords, and
also when the loop leaves best unset). -/
def dateBranch (posts : List ParsedPost) (tdate : Option (List Char))
    (tkws : List (List Char)) : Option ParsedPost :=
  let date_posts := posts.filter (fun p => p.date == tdate)
  if date_posts.isEmpty then none
  else if tkws.isEmpty then date_posts.head?
  else
    match bestFold tkws date_posts with
    | (some b, _) => some b
    | (none, _) => date_posts.head?

/-- The free-text strategy of _find_target: first post whose normalised text
contains the normalised target text. -/
def textLookup (posts : List ParsedPost) (ttext : List Char) : Option ParsedPost :=
  let tn := normalize_text ttext
  if tn.isEmpty then none
  else posts.find? (fun p => containsSub tn (normHaystack p))

/-- The keyword strategy of _find_target: best scorer, kept only on a
strictly positive score. -/
def keywordBranch (posts : List ParsedPost) (tkws : List (List Char)) : Option ParsedPost :=
  if tkws.isEmpty then none
  else
    match bestFold tkws posts with
    | (some b, s) => if 0 < s then some b else none
    | (none, _) => none

/-- The source's _find_target, strategy for strategy: identifier lookup, then
(on an empty batch, None), then the date branch when a date is truthy, else
free-text lookup falling through to keyword scoring. -/
def find_target (posts : List ParsedPost) (target_id target_text : List Char)
    (target_date : Option (List Char)) (target_keywords : List (List Char)) :
    Option ParsedPost :=
  match idLookup posts target_id with
  | some p => some p
  | none =>
    if posts.isEmpty then none
    else if optTruthy target_date then dateBranch posts target_date target_keywords
    else
      match textLookup posts target_text with
      | some p => some p
      | none => keywordBranch posts target_keywords

/-- The source's _is_gallery_candidate. -/
def is_gallery_candidate (post : ParsedPost) : Bool :=
  if post.post_type == "photo".data then true
  else if !post.photos.isEmpty && post.post_type != "video".data then true
  else false

/-- Python word character class (ASCII part): alphanumeric or underscore. -/
def wordChar (c : Char) : Bool :=
  c.isAlphanum || c = '_'

/-- One-pass scanner behind the hash-word search: cur is the reversed
characters of the word capture currently open after a hash sign, none when
no capture is open; a capture is emitted when it closes non-empty. -/
def hashScan : Option (List Char) → List Char → List (List Char)
  | cur, [] =>
    match cur with
    | some (a :: as) => [(a :: as).reverse]
    | _ => []
  | cur, c :: rest =>
    match cur with
    | some w =>
      if wordChar c then hashScan (some (c :: w)) rest
      else
        (match w with
         | [] => []
         | a :: as => [(a :: as).reverse]) ++
          hashScan (if c = '#' then some [] else none) rest
    | none => hashScan (if c = '#' then some [] else none) rest

/-- re.findall over the hash-word pattern: left-to-right, non-overlapping
captures of the maximal word following a hash sign. -/
def findHashtags (l : List Char) : List (List Char) :=
  hashScan none l

/-- Python str.strip with an explicit character, applied to each capture by
the source (a no-op on captures of the word pattern). -/
def stripCharBoth (c : Char) (l : List Char) : List Char :=
  ((l.dropWhile (· = c)).reverse.dropWhile (· = c)).reverse

/-- Case-insensitive lexicographic comparison of character lists, the order
Python's sorted uses under the lowercasing key. -/
def lowLe : List Char → List Char → Bool
  | [], _ => true
  | _ :: _, [] => false
  | a :: as, b :: bs =>
    if a.toLower.toNat < b.toLower.toNat then true
    else if b.toLower.toNat < a.toLower.toNat then false
    else lowLe as bs

/-- Ordered insert for the case-insensitive order. -/
def insertLow (x : List Char) : List (List Char) → List (List Char)
  | [] => [x]
  | y :: ys => if lowLe x y then x :: y :: ys else y :: insertLow x ys

/-- Sort by the case-insensitive order (models Python sorted with the
lowercasing key; the source's set gives ties no specified order). -/
def sortLow : List (List Char) → List (List Char)
  | [] => []
  | x :: xs => insertLow x (sortLow xs)

/-- The source's _extract_hashtags: collect hash-word captures, strip hash
signs, deduplicate through a set, sort case-insensitively. -/
def extract_hashtags (text : List Char) : List (List Char) :=
  if text.isEmpty then []
  else sortLow (((findHashtags text).map (stripCharBoth '#')).dedup)

/-- One expandable image element: its lazy-load attribute and its direct
source attribute (attribute presence, not truthiness, is what the source
tests). -/
structure ImgTag where
  data_lazy : Option (List Char)
  src : Option (List Char)
deriving DecidableEq, Repr

/-- The fields of one post-card DOM element that _parse_post reads, with the
DOM lookups abstracted into record fields. -/
structure PostTag where
  id_attr : Option (List Char)
  data_post_id : Option (List Char)
  classes : List (List Char)
  locked_marker : Bool
  body_text : Option (List Char)
  subtitle_text : Option (List Char)
  imgs : List ImgTag
deriving DecidableEq, Repr

/-- Python a or b for optional strings: the first operand when present and
non-empty, else the default. -/
def orStr : Option (List Char) → List Char → List Char
  | some s, d => if s.isEmpty then d else s
  | none, d => d

/-- The source's _parse_post. The date parser (the source's _parse_date,
backed by the external dateutil library) is passed in abstractly. -/
def parse_post (dateParse : List Char → Option (List Char)) (tag : PostTag) : ParsedPost :=
  let post_id := orStr tag.id_attr (orStr tag.data_post_id [])
  let post_type :=
    if tag.classes.contains "video".data then "video".data
    else if tag.classes.contains "photo".data then "photo".data
    else if tag.classes.contains "text".data then "text".data
    else "unknown".data
  let full_text := match tag.body_text with
    | some t => stripWS t
    | none => []
  let text_preview := stripWS ((collapseWS full_text).take 80)
  let date_raw := match tag.subtitle_text with
    | some t => stripWS t
    | none => []
  { post_id := post_id
    post_id_digits := normalize_digits post_id
    post_type := post_type
    date := dateParse date_raw
    full_text := full_text
    text_preview := text_preview
    photos := tag.imgs.filterMap (fun img =>
      match img.data_lazy with
      | some v => some v
      | none => img.src)
    locked := tag.locked_marker }

/-- JSON-like values occurring in the records the builders emit. -/
inductive JVal where
  | str (s : List Char)
  | list (vs : List JVal)
  | obj (fields : List (List Char × JVal))

/-- The source's final-filter test v in (None, empty list, empty string),
on present values (None is handled by the Option layer). -/
def isEmptyVal : JVal → Bool
  | .str s => s.isEmpty
  | .list vs => vs.isEmpty
  | .obj _ => false

/-- Python truthiness of a JSON-like value. -/
def jvalTruthy : JVal → Bool
  | .str s => !s.isEmpty
  | .list vs => !vs.isEmpty
  | .obj fs => !fs.isEmpty

/-- The builders' final dictionary comprehension: drop absent values and
values equal to None, the empty string or the empty list. -/
def dropEmpty (fields : List (List Char × Option JVal)) : List (List Char × JVal) :=
  fields.filterMap (fun kv =>
    match kv.2 with
    | none => none
    | some v => if isEmptyVal v then none else some (kv.1, v))

/-- The constant STUDIO mapping. -/
def studioVal : JVal :=
  .obj [("name".data, .str "JustForFans".data), ("url".data, .str "https://justfor.fans".data)]

/-- The source's code field: digit-normalised id, else the raw id, else None. -/
def codeVal (post : ParsedPost) : Option JVal :=
  if !post.post_id_digits.isEmpty then some (.str post.post_id_digits)
  else if !post.post_id.isEmpty then some (.str post.post_id)
  else none

/-- Title built by both builders: preview or a generic label, with a truthy
date appended in parentheses. -/
def scene_title (post : ParsedPost) : List Char :=
  let t := if post.text_preview.isEmpty then "JustForFans post".data else post.text_preview
  match post.date with
  | some d => if d.isEmpty then t else t ++ (" (".data ++ d ++ ")".data)
  | none => t

/-- The source's _build_scene. -/
def build_scene (post : ParsedPost) (url : Option (List Char)) (performer : Option JVal) :
    List (List Char × JVal) :=
  let base : List (List Char × Option JVal) :=
    [("title".data, some (.str (scene_title post))),
     ("details".data, if post.full_text.isEmpty then none else some (.str post.full_text)),
     ("date".data, post.date.map .str),
     ("url".data, url.map .str),
     ("urls".data, match url with
        | some u => if u.isEmpty then none else some (.list [.str u])
        | none => none),
     ("code".data, codeVal post),
     ("studio".data, some studioVal)]
  let withImage := match post.photos with
    | [] => base
    | p0 :: _ => base ++ [("image".data, some (.str p0))]
  let tags := extract_hashtags post.full_text
  let withTags :=
    if tags.isEmpty then withImage
    else withImage ++
      [("tags".data, some (.list (tags.map (fun t => .obj [("name".data, .str t)]))))]
  let withPerf := match performer with
    | some pf => if jvalTruthy pf then withTags ++ [("performers".data, some (.list [pf]))]
                 else withTags
    | none => withTags
  dropEmpty withPerf

/-- The source's _build_gallery. -/
def build_gallery (post : ParsedPost) (url : Option (List Char)) (performer : Option JVal) :
    List (List Char × JVal) :=
  let base : List (List Char × Option JVal) :=
    [("title".data, some (.str (scene_title post))),
     ("details".data, if post.full_text.isEmpty then none else some (.str post.full_text)),
     ("date".data, post.date.map .str),
     ("url".data, url.map .str),
     ("urls".data, if post.photos.isEmpty then none
                   else some (.list (post.photos.map .str))),
     ("code".data, codeVal post),
     ("studio".data, some studioVal)]
  let tags := extract_hashtags post.full_text
  let withTags :=
    if tags.isEmpty then base
    else base ++
      [("tags".data, some (.list (tags.map (fun t => .obj [("name".data, .str t)]))))]
  let withPerf := match performer with
    | some pf => if jvalTruthy pf then withTags ++ [("performers".data, some (.list [pf]))]
                 else withTags
    | none => withTags
  dropEmpty withPerf

/-- One fetched feed page, abstracting the transport and the DOM: the parsed
post-card elements in document order and the cursor read from the page's
next-page link by _next_start_at. -/
structure Page where
  cards : List PostTag
  nextStart : Option Int

/-- How the crawl ends, mirroring the returns and raises of _scrape_post. -/
inductive CrawlEnd where
  | matched (p : ParsedPost)
  | fallbackLatest (p : ParsedPost)
  | errTargetNotFound
  | errNoPosts
deriving DecidableEq, Repr

/-- The crawl loop's per-card retention filter: drop locked posts unless
configured otherwise, and for galleries keep only gallery candidates. -/
def retainPost (include_locked require_gallery : Bool) (p : ParsedPost) : Bool :=
  !(p.locked && !include_locked) && (!require_gallery || is_gallery_candidate p)

/-- Truthiness of the four target fields, the loop's test for whether a
target specification is active. -/
def targetNonempty (tid ttext : List Char) (tdate : Option (List Char))
    (tkws : List (List Char)) : Bool :=
  !tid.isEmpty || !ttext.isEmpty || optTruthy tdate || !tkws.isEmpty

/-- What _scrape_post does after the loop: target not found when a target was
active, else the latest-post fallback, else no posts available. -/
def exitResult (tne : Bool) (latest : Option ParsedPost) : CrawlEnd :=
  if tne then .errTargetNotFound
  else
    match latest with
    | some p => .fallbackLatest p
    | none => .errNoPosts

/-- The pagination loop of _scrape_post, fuelled by the remaining page budget
(max_pages minus pages already visited). It returns how the crawl ended and
the total number of pages fetched (the final pages counter). -/
def scrape_loop (page : Int → Page) (dateParse : List Char → Option (List Char))
    (tid ttext : List Char) (tdate : Option (List Char)) (tkws : List (List Char))
    (include_locked require_gallery : Bool) :
    Nat → Int → Option ParsedPost → Nat → CrawlEnd × Nat
  | 0, _, latest, pages => (exitResult (targetNonempty tid ttext tdate tkws) latest, pages)
  | fuel + 1, current, latest, pages =>
    let pg := page current
    let cards := (pg.cards.map (parse_post dateParse)).filter
      (retainPost include_locked require_gallery)
    let latest' := latest <|> cards.head?
    let tne := targetNonempty tid ttext tdate tkws
    match (if tne then find_target cards tid ttext tdate tkws else latest') with
    | some m => ((if tne then CrawlEnd.matched m else CrawlEnd.fallbackLatest m), pages + 1)
    | none =>
      match pg.nextStart with
      | none => (exitResult tne latest', pages + 1)
      | some n =>
        if n ≤ current then (exitResult tne latest', pages + 1)
        else
          scrape_loop page dateParse tid ttext tdate tkws include_locked require_gallery
            fuel n latest' (pages + 1)

/-- The post a finished crawl resolved, when it resolved one. -/
def crawlPost : CrawlEnd → Option ParsedPost
  | .matched p => some p
  | .fallbackLatest p => some p
  | .errTargetNotFound => none
  | .errNoPosts => none

/-- The error message _scrape_gallery raises on a photo-less resolved post. -/
def photosError : List Char :=
  "Selected post does not contain photos".data

/-- The source's _scrape_gallery on top of the crawl: require a gallery
during the crawl, then fail when the resolved post has no photos, else build
the gallery record. -/
def scrape_gallery (page : Int → Page) (dateParse : List Char → Option (List Char))
    (tid ttext : List Char) (tdate : Option (List Char)) (tkws : List (List Char))
    (include_locked : Bool) (max_pages : Nat) (start_at : Int)
    (url : Option (List Char)) (performer : Option JVal) :
    Except (List Char) (List (List Char × JVal)) :=
  match scrape_loop page dateParse tid ttext tdate tkws include_locked true
      max_pages start_at none 0 with
  | (.matched p, _) =>
    if p.photos.isEmpty then .error photosError else .ok (build_gallery p url performer)
  | (.fallbackLatest p, _) =>
    if p.photos.isEmpty then .error photosError else .ok (build_gallery p url performer)
  | (.errTargetNotFound, _) => .error "Target post not found in scanned pages".data
  | (.errNoPosts, _) => .error "No posts available for this performer".data

/-- The first list starts the second (used to state the preview invariant). -/
def isPre (l s : List Char) : Prop :=
  ∃ t, l ++ t = s

/-- Sample-post constructor for concrete checks: the digit-normalised id is
derived from the raw id, as the parser guarantees. -/
def mkPost (pid typ ft : List Char) (d : Option (List Char)) (photos : List (List Char)) :
    ParsedPost :=
  { post_id := pid, post_id_digits := normalize_digits pid, post_type := typ,
    date := d, full_text := ft, text_preview := [], photos := photos, locked := false }

/-- Concrete post with digits 12 (identifier-match checks). -/
def wpostA : ParsedPost := mkPost "post12".data "photo".data [] none []

/-- Second concrete post with the same digits 12. -/
def wpostB : ParsedPost := mkPost "x12".data "video".data [] none []

/-- Concrete post with digits 2 and a date (identifier fall-through check). -/
def cpost1 : ParsedPost := mkPost "post2".data "photo".data [] (some "2024-01-02".data) []

/-- Concrete post with digits 7 and a date (date-miss check). -/
def cpost2 : ParsedPost := mkPost "post7".data "photo".data [] (some "2024-01-01".data) []

/-- Concrete post with digits 9 and no date. -/
def cpost5a : ParsedPost := mkPost "post9".data "text".data [] none []

/-- Concrete dated post whose text contains the keyword alpha. -/
def cpost5b : ParsedPost :=
  mkPost "nodigits".data "text".data "alpha beta".data (some "2024-03-03".data) []

/-- Concrete post without digits whose text contains the keyword hello. -/
def wpost6 : ParsedPost := mkPost [] "text".data "hello world".data none []

/-- Concrete video post carrying a photo attachment. -/
def wpost9 : ParsedPost := mkPost "p1".data "video".data [] none ["https://img".data]

/-- Concrete photo-kind post card without any extracted image URL. -/
def tag10 : PostTag :=
  { id_attr := some "post12".data, data_post_id := none,
    classes := ["mbsc-card".data, "photo".data], locked_marker := false,
    body_text := none, subtitle_text := none, imgs := [] }

/-- Crawl page serving the photo-less photo card, with no next-page link. -/
def galleryPage : Int → Page :=
  fun _ => { cards := [tag10], nextStart := none }

/-- Crawl page with no cards and no next-page link. -/
def stallPage : Int → Page :=
  fun _ => { cards := [], nextStart := none }

/-- Trivial stand-in for the external date parser. -/
def noDate : List Char → Option (List Char) :=
  fun _ => none

theorem dropEmpty_all (fields : List (List Char × Option JVal)) :
    (dropEmpty fields).all (fun kv => !isEmptyVal kv.2) = true := by
  induction fields with
  | nil => rfl
  | cons kv rest ih =>
    obtain ⟨k, v⟩ := kv
    cases v with
    | none => simpa [dropEmpty, List.filterMap_cons] using ih
    | some w =>
      by_cases hw : isEmptyVal w = true
      · simpa [dropEmpty, List.filterMap_cons, hw] using ih
      · simp only [Bool.not_eq_true] at hw
        simpa [dropEmpty, List.filterMap_cons, hw] using ih

/-- C4: for every resolved post, URL and optional performer, neither the
scene record nor the gallery record keeps a key whose value is null, the
empty string or the empty list; such fields are omitted entirely. -/
theorem builders_drop_empty_values (post : ParsedPost) (url : Option (List Char))
    (performer : Option JVal) :
    (build_scene post url performer).all (fun kv => !isEmptyVal kv.2) = true ∧
    (build_gallery post url performer).all (fun kv => !isEmptyVal kv.2) = true :=
  ⟨dropEmpty_all _, dropEmpty_all _⟩

/-- C9: the gallery-candidate predicate accepts a post exactly when its kind
is photo, or its kind is neither photo nor video and it has at least one
photo; in particular a video-kind post is excluded even with photos. -/
theorem gallery_candidate_characterisation (post : ParsedPost) :
    (is_gallery_candidate post = true ↔
      (post.post_type = "photo".data ∨
        (post.post_type ≠ "photo".data ∧ post.post_type ≠ "video".data ∧
          post.photos ≠ []))) ∧
    (post.post_type = "video".data → post.photos ≠ [] →
      is_gallery_candidate post = false) := by
  constructor
  · by_cases h1 : post.post_type = "photo".data
    · simp [is_gallery_candidate, h1]
    · by_cases h2 : post.post_type = "video".data
      · have : post.post_type ≠ "photo".data := h1
        simp [is_gallery_candidate, h2, h1]
      · by_cases h3 : post.photos = []
        · simp [is_gallery_candidate, h1, h2, h3]
        · simp [is_gallery_candidate, h1, h2, h3]
  · intro hv _
    simp [is_gallery_candidate, hv]

/-- C9 witness: a concrete video-kind post with a photo attachment is not a
gallery candidate. -/
theorem gallery_candidate_witness :
    wpost9.post_type = "video".data ∧ wpost9.photos ≠ [] ∧
    is_gallery_candidate wpost9 = false :=
  ⟨by decide, by decide, (gallery_candidate_characterisation wpost9).2 (by decide) (by decide)⟩

/-- C1 (amended): when the target id has digits, _find_target returns the
first post whose digit-normalised id equals them; when no post matches, it
does not return NoMatch but falls through, behaving exactly as if no id had
been supplied (date, free-text and keyword matching still run). -/
theorem id_match_first_or_fall_through (posts : List ParsedPost) (tid ttext : List Char)
    (tdate : Option (List Char)) (tkws : List (List Char))
    (hdig : normalize_digits tid ≠ []) :
    (∀ p, posts.find? (fun q => q.post_id_digits == normalize_digits tid) = some p →
        find_target posts tid ttext tdate tkws = some p) ∧
    (posts.find? (fun q => q.post_id_digits == normalize_digits tid) = none →
        find_target posts tid ttext tdate tkws = find_target posts [] ttext tdate tkws) := by
  have hid : idLookup posts tid =
      posts.find? (fun q => q.post_id_digits == normalize_digits tid) := by
    unfold idLookup
    simp [List.isEmpty_iff, hdig]
  have hid0 : idLookup posts [] = none := by
    unfold idLookup
    simp [normalize_digits]
  constructor
  · intro p hp
    unfold find_target
    rw [hid, hp]
  · intro hp
    unfold find_target
    rw [hid, hp, hid0]

/-- C1 witness: with target id 12 and two posts whose ids normalise to 12,
the first one is returned. -/
theorem id_match_first_witness :
    normalize_digits "12".data ≠ [] ∧
    find_target [wpostA, wpostB] "12".data [] none [] = some wpostA :=
  ⟨by decide,
    (id_match_first_or_fall_through [wpostA, wpostB] "12".data [] none [] (by decide)).1
      wpostA (by decide)⟩

/-- C1 counterexample: target id 1 matches no post of the batch, yet
_find_target does not return NoMatch — it falls through to the date
strategy and returns the dated post. -/
theorem id_no_match_falls_through_cex :
    cpost1.post_id_digits ≠ normalize_digits "1".data ∧
    find_target [cpost1] "1".data [] (some "2024-01-02".data) [] = some cpost1 :=
  ⟨by decide, by decide⟩

/-- C2 (amended): when the identifier strategy yields no match and the spec
has a (truthy) date that no post of the batch carries, _find_target returns
NoMatch for the batch, regardless of keyword overlap. -/
theorem date_miss_returns_none (posts : List ParsedPost) (tid ttext : List Char)
    (tkws : List (List Char)) (d : List Char)
    (hid : idLookup posts tid = none) (hd : d ≠ [])
    (hmiss : ∀ p ∈ posts, p.date ≠ some d) :
    find_target posts tid ttext (some d) tkws = none := by
  unfold find_target
  rw [hid]
  cases posts with
  | nil => simp
  | cons p ps =>
    have htruthy : optTruthy (some d) = true := by
      simp [optTruthy, hd]
    simp only [List.isEmpty_cons, htruthy, Bool.false_eq_true, if_false, if_true]
    unfold dateBranch
    have hfil : (p :: ps).filter (fun q => q.date == some d) = [] := by
      rw [List.filter_eq_nil_iff]
      intro q hq
      simp only [beq_iff_eq]
      exact hmiss q hq
    simp [hfil]

/-- C2 witness: a batch whose single post contains the spec's keyword but
not its date resolves to NoMatch. -/
theorem date_miss_returns_none_witness :
    idLookup [wpost6] [] = none ∧ (∀ p, p ∈ [wpost6] → p.date ≠ some "2024-02-02".data) ∧
    find_target [wpost6] [] [] (some "2024-02-02".data) ["hello".data] = none :=
  ⟨by decide, by decide,
    date_miss_returns_none [wpost6] [] [] ["hello".data] "2024-02-02".data
      (by decide) (by decide) (by decide)⟩

/-- C2 counterexample: a target spec with a date no post carries still
resolves to a post when its id matches one — the claim's unconditional
NoMatch fails for specs that also carry a matching id. -/
theorem date_miss_cex :
    (∀ q ∈ [cpost2], q.date ≠ some "2024-02-02".data) ∧
    find_target [cpost2] "7".data [] (some "2024-02-02".data) [] ≠ none :=
  ⟨by decide, by decide⟩

theorem postScore_cast_nonneg (kws : List (List Char)) (p : ParsedPost) :
    (-1 : Int) < (postScore kws p : Int) := by
  have h := Int.ofNat_nonneg (postScore kws p)
  omega

theorem find?_cons_pos' (pred : ParsedPost → Bool) (a : ParsedPost) (l : List ParsedPost)
    (h : pred a = true) : List.find? pred (a :: l) = some a := by
  simp [List.find?, h]

theorem find?_cons_neg' (pred : ParsedPost → Bool) (a : ParsedPost) (l : List ParsedPost)
    (h : pred a = false) : List.find? pred (a :: l) = List.find? pred l := by
  simp [List.find?, h]

theorem bestFold_go (kws : List (List Char)) (l : List ParsedPost) :
    ∀ a : ParsedPost,
      ∃ b, List.foldl (bestStep kws) (some a, (postScore kws a : Int)) l
            = (some b, (postScore kws b : Int))
        ∧ (∀ q ∈ a :: l, postScore kws q ≤ postScore kws b)
        ∧ (a :: l).find? (fun q => postScore kws q == postScore kws b) = some b := by
  induction l with
  | nil =>
    intro a
    refine ⟨a, rfl, ?_, ?_⟩
    · intro q hq
      have : q = a := by simpa using hq
      subst this
      exact le_refl _
    · simp [List.find?]
  | cons p ps ih =>
    intro a
    by_cases h : postScore kws a < postScore kws p
    · obtain ⟨b, hfold, hbound, hfind⟩ := ih p
      have hc : ((postScore kws a : Int)) < (postScore kws p : Int) := by exact_mod_cast h
      refine ⟨b, ?_, ?_, ?_⟩
      · rw [List.foldl_cons]
        have hstep : bestStep kws (some a, (postScore kws a : Int)) p
            = (some p, (postScore kws p : Int)) := by
          simp [bestStep, hc]
        rw [hstep]
        exact hfold
      · intro q hq
        rcases List.mem_cons.mp hq with hqa | hq'
        · subst hqa
          have hp := hbound p (List.mem_cons_self p ps)
          omega
        · exact hbound q hq'
      · have hab : (fun q => postScore kws q == postScore kws b) a = false := by
          have hp := hbound p (List.mem_cons_self p ps)
          simp only [beq_eq_false_iff_ne, ne_eq]
          omega
        rw [find?_cons_neg' _ _ _ hab]
        exact hfind
    · obtain ⟨b, hfold, hbound, hfind⟩ := ih a
      have hc : ¬ ((postScore kws a : Int) < (postScore kws p : Int)) := by
        simp only [not_lt] at h ⊢
        exact_mod_cast h
      have hfold' : List.foldl (bestStep kws) (some a, (postScore kws a : Int)) (p :: ps)
          = (some b, (postScore kws b : Int)) := by
        rw [List.foldl_cons]
        have hstep : bestStep kws (some a, (postScore kws a : Int)) p
            = (some a, (postScore kws a : Int)) := by
          simp [bestStep, hc]
        rw [hstep]
        exact hfold
      have hpa : postScore kws p ≤ postScore kws a := le_of_not_lt h
      have hae : postScore kws a ≤ postScore kws b := hbound a (List.mem_cons_self a ps)
      refine ⟨b, hfold', ?_, ?_⟩
      · intro q hq
        rcases List.mem_cons.mp hq with hqa | hq'
        · subst hqa
          exact hae
        · rcases List.mem_cons.mp hq' with hqp | hq''
          · subst hqp
            omega
          · exact hbound q (List.mem_cons.mpr (Or.inr hq''))
      · by_cases ha : postScore kws a = postScore kws b
        · have hpos : (fun q => postScore kws q == postScore kws b) a = true := by
            simp [ha]
          have h1 : (a :: ps).find? (fun q => postScore kws q == postScore kws b)
              = some a := find?_cons_pos' _ _ _ hpos
          rw [h1] at hfind
          have hba : a = b := by injection hfind
          subst hba
          exact find?_cons_pos' _ _ _ hpos
        · have hneg : (fun q => postScore kws q == postScore kws b) a = false := by
            simp [beq_eq_false_iff_ne, ha]
          have hfind' : ps.find? (fun q => postScore kws q == postScore kws b) = some b := by
            rw [find?_cons_neg' _ _ _ hneg] at hfind
            exact hfind
          have hpb : (fun q => postScore kws q == postScore kws b) p = false := by
            simp only [beq_eq_false_iff_ne, ne_eq]
            omega
          rw [find?_cons_neg' _ _ _ hneg, find?_cons_neg' _ _ _ hpb]
          exact hfind'

theorem bestFold_spec (kws : List (List Char)) (p : ParsedPost) (ps : List ParsedPost) :
    ∃ b, bestFold kws (p :: ps) = (some b, (postScore kws b : Int))
      ∧ (∀ q ∈ p :: ps, postScore kws q ≤ postScore kws b)
      ∧ (p :: ps).find? (fun q => postScore kws q == postScore kws b) = some b := by
  unfold bestFold
  rw [List.foldl_cons]
  have hstep : bestStep kws (none, -1) p = (some p, (postScore kws p : Int)) := by
    have hc := postScore_cast_nonneg kws p
    simp [bestStep, hc]
  rw [hstep]
  exact bestFold_go kws ps p

theorem find_target_of_idLookup_none (posts : List ParsedPost) (tid ttext : List Char)
    (tdate : Option (List Char)) (tkws : List (List Char))
    (hid : idLookup posts tid = none) :
    find_target posts tid ttext tdate tkws =
      if posts.isEmpty then none
      else if optTruthy tdate then dateBranch posts tdate tkws
      else
        match textLookup posts ttext with
        | some p => some p
        | none => keywordBranch posts tkws := by
  unfold find_target
  rw [hid]

/-- C5 (amended): when the identifier strategy yields no match, the spec has
a truthy date and non-empty keywords, and the date-restricted candidate set
is non-empty, _find_target returns a date-matching post of the highest
keyword score, ties broken by first occurrence, and when every candidate
scores zero it returns the first date match. -/
theorem date_keyword_best_selection (posts : List ParsedPost) (tid ttext : List Char)
    (tkws : List (List Char)) (d : List Char)
    (hid : idLookup posts tid = none) (hd : d ≠ []) (hkw : tkws ≠ [])
    (hne : posts.filter (fun p => p.date == some d) ≠ []) :
    find_target posts tid ttext (some d) tkws ≠ none ∧
    ∀ b, find_target posts tid ttext (some d) tkws = some b →
      b ∈ posts.filter (fun p => p.date == some d) ∧
      (∀ q ∈ posts.filter (fun p => p.date == some d),
        postScore tkws q ≤ postScore tkws b) ∧
      (posts.filter (fun p => p.date == some d)).find?
        (fun q => postScore tkws q == postScore tkws b) = some b ∧
      ((∀ q ∈ posts.filter (fun p => p.date == some d), postScore tkws q = 0) →
        (posts.filter (fun p => p.date == some d)).head? = some b) := by
  obtain ⟨p0, ps0, hdp⟩ := List.exists_cons_of_ne_nil hne
  have hposts : posts ≠ [] := by
    intro hnil
    subst hnil
    simp at hdp
  obtain ⟨b0, hfold, hbound, hfind⟩ := bestFold_spec tkws p0 ps0
  have hempty : posts.isEmpty = false := by simp [hposts]
  have htruthy : optTruthy (some d) = true := by simp [optTruthy, hd]
  have hkwe : tkws.isEmpty = false := by simp [hkw]
  have hval : find_target posts tid ttext (some d) tkws = some b0 := by
    rw [find_target_of_idLookup_none posts tid ttext (some d) tkws hid]
    rw [hempty, htruthy]
    simp only [Bool.false_eq_true, if_false, if_true]
    unfold dateBranch
    simp only [hdp, List.isEmpty_cons, Bool.false_eq_true, if_false, hkwe, hfold]
  refine ⟨by rw [hval]; exact Option.some_ne_none b0, ?_⟩
  intro b hb
  rw [hval] at hb
  have hbb : b0 = b := by injection hb
  subst hbb
  have hmem : b0 ∈ posts.filter (fun p => p.date == some d) := by
    rw [hdp]
    exact List.mem_of_find?_eq_some hfind
  refine ⟨hmem, ?_, ?_, ?_⟩
  · intro q hq
    rw [hdp] at hq
    exact hbound q hq
  · rw [hdp]
    exact hfind
  · intro hz
    have hb0 : postScore tkws b0 = 0 := hz b0 hmem
    have hp0 : postScore tkws p0 = 0 := by
      apply hz
      rw [hdp]
      exact List.mem_cons_self p0 ps0
    have hpos : (fun q => postScore tkws q == postScore tkws b0) p0 = true := by
      simp [hp0, hb0]
    have h1 : (p0 :: ps0).find? (fun q => postScore tkws q == postScore tkws b0)
        = some p0 := find?_cons_pos' _ _ _ hpos
    rw [h1] at hfind
    have : p0 = b0 := by injection hfind
    subst this
    rw [hdp]
    rfl

/-- C5 witness: with no id, date 2024-03-03 and keyword alpha, the dated
post containing alpha is selected and satisfies the selection properties. -/
theorem date_keyword_best_selection_witness :
    find_target [cpost5a, cpost5b] [] [] (some "2024-03-03".data) ["alpha".data]
      = some cpost5b ∧
    cpost5b ∈ [cpost5a, cpost5b].filter (fun p => p.date == some "2024-03-03".data) ∧
    (∀ q ∈ [cpost5a, cpost5b].filter (fun p => p.date == some "2024-03-03".data),
      postScore ["alpha".data] q ≤ postScore ["alpha".data] cpost5b) := by
  have h := (date_keyword_best_selection [cpost5a, cpost5b] [] [] ["alpha".data]
    "2024-03-03".data (by decide) (by decide) (by decide) (by decide)).2
    cpost5b (by decide)
  exact ⟨by decide, h.1, h.2.1⟩

/-- C5 counterexample: a spec carrying both a matching id and a date is
resolved by the identifier strategy, not by the date-restricted keyword
scoring the claim asserts unconditionally — the returned post is not even
date-matching. -/
theorem date_keyword_best_selection_cex :
    find_target [cpost5a, cpost5b] "9".data [] (some "2024-03-03".data) ["alpha".data]
      = some cpost5a ∧
    cpost5a.date ≠ some "2024-03-03".data :=
  ⟨by decide, by decide⟩

/-- C6: with no id, no date and no free text but non-empty keywords,
_find_target returns the first top-scoring post exactly when its score is
strictly positive, and NoMatch exactly when every post scores zero. -/
theorem keywords_only_threshold (posts : List ParsedPost) (tid ttext : List Char)
    (tkws : List (List Char))
    (hid : normalize_digits tid = []) (htext : normalize_text ttext = [])
    (hkw : tkws ≠ []) :
    (∀ b, find_target posts tid ttext none tkws = some b →
      b ∈ posts ∧ 0 < postScore tkws b ∧
      (∀ q ∈ posts, postScore tkws q ≤ postScore tkws b) ∧
      posts.find? (fun q => postScore tkws q == postScore tkws b) = some b) ∧
    (find_target posts tid ttext none tkws = none →
      ∀ q ∈ posts, postScore tkws q = 0) ∧
    ((∀ q ∈ posts, postScore tkws q = 0) →
      find_target posts tid ttext none tkws = none) := by
  have hidl : idLookup posts tid = none := by
    unfold idLookup
    simp [hid]
  have hkwe : tkws.isEmpty = false := by simp [hkw]
  have htl : textLookup posts ttext = none := by
    unfold textLookup
    simp [htext]
  cases posts with
  | nil =>
    have hnone : find_target [] tid ttext none tkws = none := by
      rw [find_target_of_idLookup_none [] tid ttext none tkws hidl]
      rfl
    refine ⟨?_, ?_, ?_⟩
    · intro b hb
      rw [hnone] at hb
      exact absurd hb (by simp)
    · intro _ q hq
      exact absurd hq (by simp)
    · intro _
      exact hnone
  | cons p ps =>
    obtain ⟨b0, hfold, hbound, hfind⟩ := bestFold_spec tkws p ps
    have hred : find_target (p :: ps) tid ttext none tkws
        = keywordBranch (p :: ps) tkws := by
      rw [find_target_of_idLookup_none (p :: ps) tid ttext none tkws hidl]
      simp only [List.isEmpty_cons, Bool.false_eq_true, if_false, optTruthy, htl]
    have hkb : keywordBranch (p :: ps) tkws
        = if 0 < (postScore tkws b0 : Int) then some b0 else none := by
      unfold keywordBranch
      simp only [hkwe, Bool.false_eq_true, if_false, hfold]
    by_cases hs : 0 < postScore tkws b0
    · have hsi : (0 : Int) < (postScore tkws b0 : Int) := by exact_mod_cast hs
      have hval : find_target (p :: ps) tid ttext none tkws = some b0 := by
        rw [hred, hkb, if_pos hsi]
      refine ⟨?_, ?_, ?_⟩
      · intro b hb
        rw [hval] at hb
        have : b0 = b := by injection hb
        subst this
        exact ⟨List.mem_of_find?_eq_some hfind, hs, hbound, hfind⟩
      · intro hn
        rw [hval] at hn
        exact absurd hn (by simp)
      · intro hz
        have := hz b0 (List.mem_of_find?_eq_some hfind)
        omega
    · have hsi : ¬ ((0 : Int) < (postScore tkws b0 : Int)) := by
        simp only [not_lt] at hs ⊢
        exact_mod_cast hs
      have hval : find_target (p :: ps) tid ttext none tkws = none := by
        rw [hred, hkb, if_neg hsi]
      refine ⟨?_, ?_, ?_⟩
      · intro b hb
        rw [hval] at hb
        exact absurd hb (by simp)
      · intro _ q hq
        have h1 := hbound q hq
        omega
      · intro _
        exact hval

/-- C6 witness: a single post containing the keyword hello is returned with
a strictly positive score; it is the first top scorer. -/
theorem keywords_only_threshold_witness :
    find_target [wpost6] [] [] none ["hello".data] = some wpost6 ∧
    0 < postScore ["hello".data] wpost6 ∧
    [wpost6].find?
      (fun q => postScore ["hello".data] q == postScore ["hello".data] wpost6)
      = some wpost6 := by
  have h := (keywords_only_threshold [wpost6] [] [] ["hello".data]
    (by decide) (by decide) (by decide)).1 wpost6 (by decide)
  exact ⟨by decide, h.2.1, h.2.2.2⟩

theorem rstripWS_isPre (l : List Char) : isPre (rstripWS l) l := by
  refine ⟨(l.reverse.takeWhile isPySpace).reverse, ?_⟩
  rw [rstripWS, ← List.reverse_append, List.takeWhile_append_dropWhile, List.reverse_reverse]

theorem take_isPre (n : Nat) (l : List Char) : isPre (l.take n) l :=
  ⟨l.drop n, List.take_append_drop n l⟩

theorem isPre_trans (a b c : List Char) (h1 : isPre a b) (h2 : isPre b c) : isPre a c := by
  obtain ⟨t1, h1⟩ := h1
  obtain ⟨t2, h2⟩ := h2
  exact ⟨t1 ++ t2, by rw [← List.append_assoc, h1, h2]⟩

theorem length_rstripWS_le (l : List Char) : (rstripWS l).length ≤ l.length := by
  rw [rstripWS, List.length_reverse]
  have h : (l.reverse.dropWhile isPySpace).length ≤ l.reverse.length :=
    (List.dropWhile_sublist _).length_le
  simpa using h

theorem lstrip_cons_of_not_space (c : Char) (cs : List Char) (h : isPySpace c = false) :
    lstripWS (c :: cs) = c :: cs := by
  simp [lstripWS, List.dropWhile_cons, h]

theorem not_space_of_lstrip_fixed (c : Char) (cs : List Char)
    (h : lstripWS (c :: cs) = c :: cs) : isPySpace c = false := by
  by_contra hc
  have hc' : isPySpace c = true := by
    cases hcc : isPySpace c
    · exact absurd hcc hc
    · rfl
  rw [lstripWS, List.dropWhile_cons, if_pos hc'] at h
  have hl : (cs.dropWhile isPySpace).length ≤ cs.length :=
    (List.dropWhile_sublist _).length_le
  rw [h] at hl
  simp at hl

theorem lstrip_fixed_of_isPre (y z : List Char) (hy : lstripWS y = y) (hz : isPre z y) :
    lstripWS z = z := by
  cases z with
  | nil => rfl
  | cons c zs =>
    obtain ⟨t, ht⟩ := hz
    rw [List.cons_append] at ht
    rw [← ht] at hy
    exact lstrip_cons_of_not_space c zs (not_space_of_lstrip_fixed c (zs ++ t) hy)

theorem lstrip_idem (l : List Char) : lstripWS (lstripWS l) = lstripWS l := by
  induction l with
  | nil => rfl
  | cons c cs ih =>
    by_cases h : isPySpace c = true
    · have hstep : lstripWS (c :: cs) = lstripWS cs := by
        rw [lstripWS, List.dropWhile_cons, if_pos h]
        rfl
      rw [hstep]
      exact ih
    · have h' : isPySpace c = false := by
        cases hcc : isPySpace c
        · rfl
        · exact absurd hcc h
      rw [lstrip_cons_of_not_space c cs h', lstrip_cons_of_not_space c cs h']

theorem lstrip_fixed_stripWS (l : List Char) : lstripWS (stripWS l) = stripWS l :=
  lstrip_fixed_of_isPre (lstripWS l) (stripWS l) (lstrip_idem l) (rstripWS_isPre (lstripWS l))

theorem lstrip_fixed_collapse (l : List Char) (h : lstripWS l = l) :
    lstripWS (collapseWS l) = collapseWS l := by
  cases l with
  | nil => rfl
  | cons c cs =>
    have hsp := not_space_of_lstrip_fixed c cs h
    cases cs with
    | nil =>
      rw [collapseWS, if_neg (by simp [hsp])]
      exact lstrip_cons_of_not_space c [] hsp
    | cons d cs' =>
      rw [collapseWS, if_neg (by simp [hsp])]
      exact lstrip_cons_of_not_space c _ hsp

theorem preview_spec (ft : List Char) (h : lstripWS ft = ft) :
    (stripWS ((collapseWS ft).take 80)).length ≤ 80 ∧
    isPre (stripWS ((collapseWS ft).take 80)) (collapseWS ft) := by
  have hA : lstripWS (collapseWS ft) = collapseWS ft := lstrip_fixed_collapse ft h
  have htake : lstripWS ((collapseWS ft).take 80) = (collapseWS ft).take 80 :=
    lstrip_fixed_of_isPre (collapseWS ft) ((collapseWS ft).take 80) hA
      (take_isPre 80 (collapseWS ft))
  constructor
  · rw [stripWS, htake]
    exact le_trans (length_rstripWS_le _) (List.length_take_le 80 _)
  · rw [stripWS, htake]
    exact isPre_trans _ _ _ (rstripWS_isPre _) (take_isPre 80 _)

/-- C7: for every parsed post (under any behaviour of the external date
parser), the text preview is at most 80 characters long and is an initial
segment of the whitespace-collapsed full text; this covers empty and
whitespace-only body text. -/
theorem preview_length_and_collapse (dateParse : List Char → Option (List Char))
    (tag : PostTag) :
    ((parse_post dateParse tag).text_preview).length ≤ 80 ∧
    isPre (parse_post dateParse tag).text_preview
      (collapseWS (parse_post dateParse tag).full_text) := by
  have hpv : (parse_post dateParse tag).text_preview
      = stripWS ((collapseWS (parse_post dateParse tag).full_text).take 80) := rfl
  have hfix : lstripWS (parse_post dateParse tag).full_text
      = (parse_post dateParse tag).full_text := by
    have hft : (parse_post dateParse tag).full_text
        = (match tag.body_text with
           | some t => stripWS t
           | none => []) := rfl
    rw [hft]
    cases tag.body_text with
    | none => rfl
    | some t => exact lstrip_fixed_stripWS t
  rw [hpv]
  exact preview_spec _ hfix

theorem lowLe_total (a : List Char) : ∀ b : List Char, lowLe a b = true ∨ lowLe b a = true := by
  induction a with
  | nil =>
    intro b
    left
    rfl
  | cons x xs ih =>
    intro b
    cases b with
    | nil =>
      right
      rfl
    | cons y ys =>
      rcases Nat.lt_trichotomy x.toLower.toNat y.toLower.toNat with h | h | h
      · left
        simp [lowLe, h]
      · have h2 : ¬ x.toLower.toNat < y.toLower.toNat := by omega
        have h3 : ¬ y.toLower.toNat < x.toLower.toNat := by omega
        rcases ih ys with hy | hy
        · left
          simp [lowLe, h2, h3, hy]
        · right
          simp [lowLe, h2, h3, hy]
      · right
        simp [lowLe, h]

theorem lowLe_trans (a : List Char) :
    ∀ b c : List Char, lowLe a b = true → lowLe b c = true → lowLe a c = true := by
  induction a with
  | nil =>
    intro b c _ _
    rfl
  | cons x xs ih =>
    intro b c h1 h2
    cases b with
    | nil => simp [lowLe] at h1
    | cons y ys =>
      cases c with
      | nil => simp [lowLe] at h2
      | cons z zs =>
        simp only [lowLe] at h1 h2 ⊢
        split_ifs at h1 h2 ⊢ <;>
          first
            | rfl
            | omega
            | (exact ih ys zs h1 h2)

theorem mem_insertLow (x a : List Char) (l : List (List Char)) :
    a ∈ insertLow x l ↔ a = x ∨ a ∈ l := by
  induction l with
  | nil => simp [insertLow]
  | cons y ys ih =>
    by_cases h : lowLe x y = true
    · simp [insertLow, h]
    · simp [insertLow, h, ih]
      tauto

theorem pairwise_insertLow (x : List Char) (l : List (List Char))
    (hl : l.Pairwise (fun a b => lowLe a b = true)) :
    (insertLow x l).Pairwise (fun a b => lowLe a b = true) := by
  induction l with
  | nil => simp [insertLow]
  | cons y ys ih =>
    rcases List.pairwise_cons.mp hl with ⟨hy, hys⟩
    by_cases h : lowLe x y = true
    · rw [insertLow, if_pos h]
      refine List.pairwise_cons.mpr ⟨?_, hl⟩
      intro b hb
      rcases List.mem_cons.mp hb with hbx | hb'
      · subst hbx
        exact h
      · exact lowLe_trans x y b h (hy b hb')
    · have h' : lowLe y x = true := (lowLe_total x y).resolve_left h
      rw [insertLow, if_neg h]
      refine List.pairwise_cons.mpr ⟨?_, ih hys⟩
      intro b hb
      rcases (mem_insertLow x b ys).mp hb with hbx | hb'
      · subst hbx
        exact h'
      · exact hy b hb'

theorem pairwise_sortLow (l : List (List Char)) :
    (sortLow l).Pairwise (fun a b => lowLe a b = true) := by
  induction l with
  | nil => simp [sortLow]
  | cons x xs ih =>
    rw [sortLow]
    exact pairwise_insertLow x (sortLow xs) ih

theorem mem_sortLow (a : List Char) (l : List (List Char)) : a ∈ sortLow l ↔ a ∈ l := by
  induction l with
  | nil => simp [sortLow]
  | cons x xs ih =>
    rw [sortLow]
    simp [mem_insertLow, ih]

theorem nodup_insertLow (x : List Char) (l : List (List Char))
    (hx : x ∉ l) (hl : l.Nodup) : (insertLow x l).Nodup := by
  induction l with
  | nil => simp [insertLow]
  | cons y ys ih =>
    rcases List.nodup_cons.mp hl with ⟨hy, hys⟩
    have hxy : x ≠ y := by
      intro hh
      exact hx (hh ▸ List.mem_cons_self y ys)
    have hxys : x ∉ ys := fun hh => hx (List.mem_cons.mpr (Or.inr hh))
    by_cases h : lowLe x y = true
    · rw [insertLow, if_pos h]
      refine List.nodup_cons.mpr ⟨?_, hl⟩
      intro hmem
      rcases List.mem_cons.mp hmem with h1 | h1
      · exact hxy h1
      · exact hxys h1
    · rw [insertLow, if_neg h]
      refine List.nodup_cons.mpr ⟨?_, ih hxys hys⟩
      intro hmem
      rcases (mem_insertLow x y ys).mp hmem with h1 | h1
      · exact hxy h1.symm
      · exact hy h1

theorem nodup_sortLow (l : List (List Char)) (h : l.Nodup) : (sortLow l).Nodup := by
  induction l with
  | nil => simp [sortLow]
  | cons x xs ih =>
    rcases List.nodup_cons.mp h with ⟨hx, hxs⟩
    rw [sortLow]
    exact nodup_insertLow x (sortLow xs) (fun hm => hx ((mem_sortLow x xs).mp hm)) (ih hxs)

/-- C3 (amended): hashtag extraction collects the hash-word captures,
deduplicates them exactly (case-sensitively, through a set) and returns
them sorted case-insensitively; the input with Foo, foo and Bar therefore
yields the three tags Bar, Foo, foo, not two. -/
theorem hashtags_sorted_dedup (text : List Char) :
    (extract_hashtags text).Pairwise (fun a b => lowLe a b = true) ∧
    (extract_hashtags text).Nodup ∧
    (∀ t, t ∈ extract_hashtags text ↔ t ∈ (findHashtags text).map (stripCharBoth '#')) ∧
    extract_hashtags "#Foo #foo #Bar".data = ["Bar".data, "Foo".data, "foo".data] := by
  refine ⟨?_, ?_, ?_, by decide⟩
  · unfold extract_hashtags
    split
    · simp
    · exact pairwise_sortLow _
  · unfold extract_hashtags
    split
    · simp
    · exact nodup_sortLow _ (List.nodup_dedup _)
  · intro t
    unfold extract_hashtags
    split
    · rename_i h
      have htxt : text = [] := List.isEmpty_iff.mp h
      subst htxt
      simp [findHashtags, hashScan]
    · rw [mem_sortLow, List.mem_dedup]

/-- C3 counterexample: the input with Foo, foo and Bar does not yield the
two-tag list the claim asserts — deduplication in the code is
case-sensitive, so three tags survive. -/
theorem hashtags_case_sensitive_cex :
    extract_hashtags "#Foo #foo #Bar".data ≠ ["Bar".data, "Foo".data] := by
  decide

theorem scrape_loop_pages_le (page : Int → Page) (dateParse : List Char → Option (List Char))
    (tid ttext : List Char) (tdate : Option (List Char)) (tkws : List (List Char))
    (il rg : Bool) :
    ∀ fuel current latest pages,
      (scrape_loop page dateParse tid ttext tdate tkws il rg fuel current latest pages).2
        ≤ pages + fuel := by
  intro fuel
  induction fuel with
  | zero =>
    intro current latest pages
    simp [scrape_loop]
  | succ n ih =>
    intro current latest pages
    simp only [scrape_loop]
    split
    · simp
    · split
      · simp
      · split
        · simp
        · refine le_trans (ih _ _ _) ?_
          omega

theorem scrape_loop_stall (page : Int → Page) (dateParse : List Char → Option (List Char))
    (tid ttext : List Char) (tdate : Option (List Char)) (tkws : List (List Char))
    (il rg : Bool) (fuel : Nat) (current : Int) (latest : Option ParsedPost) (pages : Nat)
    (hstall : (page current).nextStart = none ∨
      ∃ n, (page current).nextStart = some n ∧ n ≤ current) :
    (scrape_loop page dateParse tid ttext tdate tkws il rg (fuel + 1) current latest pages).2
      = pages + 1 := by
  simp only [scrape_loop]
  split
  · rfl
  · split
    · rfl
    · rename_i hsome
      split
      · rfl
      · rename_i hgt
        exfalso
        rcases hstall with hn | ⟨m, hm, hle⟩
        · rw [hn] at hsome
          exact Option.noConfusion hsome
        · rw [hm] at hsome
          have : m = _ := Option.some.inj hsome
          omega

/-- C8: the crawl fetches no further page when the current page's next-page
cursor is absent or does not advance strictly past the current cursor, even
with page budget left; and the number of pages fetched never exceeds the
remaining page budget. -/
theorem pagination_stall_and_bound (page : Int → Page)
    (dateParse : List Char → Option (List Char)) (tid ttext : List Char)
    (tdate : Option (List Char)) (tkws : List (List Char)) (il rg : Bool)
    (fuel : Nat) (current : Int) (latest : Option ParsedPost) (pages : Nat) :
    (((page current).nextStart = none ∨
        ∃ n, (page current).nextStart = some n ∧ n ≤ current) →
      (scrape_loop page dateParse tid ttext tdate tkws il rg (fuel + 1)
        current latest pages).2 = pages + 1) ∧
    (scrape_loop page dateParse tid ttext tdate tkws il rg fuel
      current latest pages).2 ≤ pages + fuel :=
  ⟨scrape_loop_stall page dateParse tid ttext tdate tkws il rg fuel current latest pages,
    scrape_loop_pages_le page dateParse tid ttext tdate tkws il rg fuel current latest pages⟩

/-- C8 witness: a page with no next-page link halts the crawl after one page
even though three pages of budget remain, and the page count stays within
budget. -/
theorem pagination_stall_witness :
    (stallPage 0).nextStart = none ∧
    (scrape_loop stallPage noDate "9".data [] none [] false false 3 0 none 0).2 = 0 + 1 ∧
    (scrape_loop stallPage noDate "9".data [] none [] false false 3 0 none 0).2 ≤ 0 + 3 :=
  ⟨rfl,
    (pagination_stall_and_bound stallPage noDate "9".data [] none [] false false
      2 0 none 0).1 (Or.inl rfl),
    (pagination_stall_and_bound stallPage noDate "9".data [] none [] false false
      3 0 none 0).2⟩

/-- C10: when the crawl of a gallery operation resolves a post whose photos
list is empty, the operation fails with the photos error and emits no
record, even though the post passed the gallery-candidate filter or matched
the target id. -/
theorem gallery_empty_photos_error (page : Int → Page)
    (dateParse : List Char → Option (List Char)) (tid ttext : List Char)
    (tdate : Option (List Char)) (tkws : List (List Char)) (il : Bool)
    (mp : Nat) (st : Int) (url : Option (List Char)) (performer : Option JVal)
    (p : ParsedPost)
    (hres : crawlPost
      (scrape_loop page dateParse tid ttext tdate tkws il true mp st none 0).1 = some p)
    (hphotos : p.photos = []) :
    scrape_gallery page dateParse tid ttext tdate tkws il mp st url performer
      = .error photosError := by
  unfold scrape_gallery
  rcases hloop : scrape_loop page dateParse tid ttext tdate tkws il true mp st none 0
    with ⟨ce, n⟩
  rw [hloop] at hres
  cases ce with
  | matched q =>
    simp only [crawlPost] at hres
    have hqp : q = p := by injection hres
    subst hqp
    simp [hphotos]
  | fallbackLatest q =>
    simp only [crawlPost] at hres
    have hqp : q = p := by injection hres
    subst hqp
    simp [hphotos]
  | errTargetNotFound => simp [crawlPost] at hres
  | errNoPosts => simp [crawlPost] at hres

/-- C10 witness: a photo-kind card with no image URLs matches the target id,
passes the gallery filter, and the gallery operation then fails with the
photos error. -/
theorem gallery_empty_photos_error_witness :
    crawlPost (scrape_loop galleryPage noDate "12".data [] none [] false true
      5 0 none 0).1 = some (parse_post noDate tag10) ∧
    (parse_post noDate tag10).photos = [] ∧
    is_gallery_candidate (parse_post noDate tag10) = true ∧
    scrape_gallery galleryPage noDate "12".data [] none [] false 5 0 none none
      = .error photosError :=
  ⟨by decide, by decide, by decide,
    gallery_empty_photos_error galleryPage noDate "12".data [] none [] false 5 0 none none
      (parse_post noDate tag10) (by decide) (by decide)⟩
